import Mathlib

/-!
Verification of the SKY130 Hammer technology plugin
(`hammer/technology/sky130/__init__.py`).

The plugin's file rewrites are line-oriented textual substitutions built on
Python `str.replace` and substring containment (`in`).  We embed text as
`List Char`; a file is a pair `(ls, t)` of its newline-terminated lines
(each stored without the trailing newline) and its final unterminated
fragment (`[]` when the file ends with a newline), which models exactly how
`for line in f` iterates a text file.

`replaceAll pat rep s` is Python's `s.replace(pat, rep)` for a non-empty
`pat`: a single left-to-right scan replacing non-overlapping occurrences.
It is implemented with an explicit fuel argument so that it is structurally
recursive and evaluates inside `decide`/`rfl`.
-/

namespace Sky130

/-- Substring containment, Python's `pat in s` (true iff `pat` occurs as a
contiguous substring of `s`). -/
def containsB (pat : List Char) : List Char → Bool
  | [] => pat.isPrefixOf []
  | c :: s => pat.isPrefixOf (c :: s) || containsB pat s

/-- Python `s.replace(pat, rep)` with explicit fuel (first argument).
With fuel `≥ s.length` this is the usual left-to-right non-overlapping
replacement; the fuel only exists to make the recursion structural. -/
def raGo (pat rep : List Char) : Nat → List Char → List Char
  | _, [] => []
  | 0, s => s
  | n + 1, c :: s =>
      if pat.isPrefixOf (c :: s) ∧ pat ≠ [] then
        rep ++ raGo pat rep n (s.drop (pat.length - 1))
      else
        c :: raGo pat rep n s

/-- Python `s.replace(pat, rep)` for non-empty `pat` (for `pat = []` it
returns `s` unchanged; the plugin only ever replaces non-empty literals). -/
def replaceAll (pat rep s : List Char) : List Char :=
  raGo pat rep s.length s

theorem isPrefixOf_iff : ∀ {p s : List Char}, p.isPrefixOf s = true ↔ p <+: s
  | [], s => by simp [List.isPrefixOf]
  | _ :: _, [] => by simp [List.isPrefixOf]
  | a :: p, b :: s => by
      simp only [List.isPrefixOf, Bool.and_eq_true, beq_iff_eq]
      constructor
      · rintro ⟨rfl, h⟩
        obtain ⟨t, rfl⟩ := isPrefixOf_iff.mp h
        exact ⟨t, rfl⟩
      · rintro ⟨t, h⟩
        injection h with h1 h2
        exact ⟨h1, isPrefixOf_iff.mpr ⟨t, h2⟩⟩

theorem pfx_cons_iff {a b : Char} {p s : List Char} :
    (a :: p) <+: (b :: s) ↔ a = b ∧ p <+: s := by
  constructor
  · rintro ⟨t, h⟩
    injection h with h1 h2
    exact ⟨h1, t, h2⟩
  · rintro ⟨rfl, t, rfl⟩
    exact ⟨t, rfl⟩

theorem infx_cons_iff {p : List Char} {c : Char} {s : List Char} :
    p <:+: (c :: s) ↔ p <+: (c :: s) ∨ p <:+: s := by
  constructor
  · rintro ⟨a, b, h⟩
    cases a with
    | nil => exact Or.inl ⟨b, by simpa using h⟩
    | cons x a =>
        injection h with h1 h2
        exact Or.inr ⟨a, b, h2⟩
  · rintro (⟨t, ht⟩ | ⟨a, b, rfl⟩)
    · exact ⟨[], t, by simpa using ht⟩
    · exact ⟨c :: a, b, rfl⟩

theorem containsB_iff {pat s : List Char} : containsB pat s = true ↔ pat <:+: s := by
  induction s with
  | nil =>
      simp only [containsB, isPrefixOf_iff]
      constructor
      · rintro ⟨t, h⟩
        exact ⟨[], t, h⟩
      · rintro ⟨a, b, h⟩
        refine ⟨b, ?_⟩
        have ha : a = [] := by
          cases a with
          | nil => rfl
          | cons x a => exact absurd h.symm (by simp)
        subst ha
        simpa using h
  | cons c s ih =>
      simp only [containsB, Bool.or_eq_true, isPrefixOf_iff, ih]
      exact infx_cons_iff.symm

theorem infx_of_pfx {p s : List Char} (h : p <+: s) : p <:+: s := by
  obtain ⟨t, rfl⟩ := h
  exact ⟨[], t, rfl⟩

theorem containsB_eq_false_iff {pat s : List Char} :
    containsB pat s = false ↔ ¬ pat <:+: s := by
  rw [← containsB_iff]
  constructor
  · intro h hc
    rw [h] at hc
    exact Bool.false_ne_true hc
  · intro h
    cases hb : containsB pat s with
    | false => rfl
    | true => exact absurd hb h

/-- Fuel irrelevance: any fuel at least the length of the input gives the
same result, so `replaceAll` satisfies the intended recurrences. -/
theorem raGo_congr (pat rep : List Char) :
    ∀ n m s, s.length ≤ n → s.length ≤ m →
      raGo pat rep n s = raGo pat rep m s := by
  intro n
  induction n with
  | zero =>
      intro m s hn _
      have : s = [] := by
        cases s with
        | nil => rfl
        | cons c s => exact absurd hn (by simp)
      subst this
      cases m <;> rfl
  | succ n ih =>
      intro m s hn hm
      cases s with
      | nil => cases m <;> rfl
      | cons c s =>
          cases m with
          | zero => exact absurd hm (by simp)
          | succ m =>
              have hs : s.length ≤ n := by simpa using hn
              have hs' : s.length ≤ m := by simpa using hm
              simp only [raGo]
              by_cases h : pat.isPrefixOf (c :: s) ∧ pat ≠ []
              · simp only [if_pos h]
                have hd : (s.drop (pat.length - 1)).length ≤ n := by
                  have := List.length_drop (pat.length - 1) s
                  omega
                have hd' : (s.drop (pat.length - 1)).length ≤ m := by
                  have := List.length_drop (pat.length - 1) s
                  omega
                rw [ih _ _ hd hd']
              · simp only [if_neg h]
                rw [ih _ _ hs hs']

theorem replaceAll_nil (pat rep : List Char) : replaceAll pat rep [] = [] := rfl

theorem replaceAll_cons (pat rep : List Char) (c : Char) (s : List Char) :
    replaceAll pat rep (c :: s) =
      if pat.isPrefixOf (c :: s) ∧ pat ≠ [] then
        rep ++ replaceAll pat rep (s.drop (pat.length - 1))
      else
        c :: replaceAll pat rep s := by
  show raGo pat rep (s.length + 1) (c :: s) = _
  simp only [raGo]
  by_cases h : pat.isPrefixOf (c :: s) ∧ pat ≠ []
  · simp only [if_pos h]
    have : (s.drop (pat.length - 1)).length ≤ s.length := by
      have := List.length_drop (pat.length - 1) s
      omega
    rw [replaceAll, raGo_congr pat rep _ _ _ (le_refl _) this]
  · simp only [if_neg h]
    rfl

/-- A list in which `pat` does not occur is left unchanged by the rewrite. -/
theorem replaceAll_of_not_occurs {pat rep : List Char} :
    ∀ {s : List Char}, ¬ pat <:+: s → replaceAll pat rep s = s := by
  intro s
  induction s with
  | nil => intro _; rfl
  | cons c s ih =>
      intro h
      rw [replaceAll_cons]
      have h1 : ¬ (pat.isPrefixOf (c :: s) ∧ pat ≠ []) := by
        rintro ⟨hp, -⟩
        exact h (infx_of_pfx (isPrefixOf_iff.mp hp))
      rw [if_neg h1]
      have h2 : ¬ pat <:+: s := fun hc => h (infx_cons_iff.mpr (Or.inr hc))
      rw [ih h2]

theorem not_infx_nil {p : List Char} (h : p ≠ []) : ¬ p <:+: [] := by
  rintro ⟨a, b, hab⟩
  simp only [List.append_eq_nil] at hab
  exact h hab.1.2

theorem pfx_take (n : Nat) (l : List Char) : l.take n <+: l :=
  ⟨l.drop n, List.take_append_drop n l⟩

theorem pfx_of_append_le {xs ys zs : List Char} (h : xs <+: ys ++ zs)
    (hl : xs.length ≤ ys.length) : xs <+: ys := by
  obtain ⟨t, ht⟩ := h
  have h1 : xs = (ys ++ zs).take xs.length := by
    rw [← ht, List.take_left]
  rw [h1, List.take_append_of_le_length hl]
  exact pfx_take _ _

theorem pfx_append_ge {xs ys zs : List Char} (h : xs <+: ys ++ zs)
    (hl : ys.length ≤ xs.length) : ys <+: xs := by
  obtain ⟨t, ht⟩ := h
  have h1 : ys = (xs ++ t).take ys.length := by
    rw [ht, List.take_left]
  rw [h1, List.take_append_of_le_length hl]
  exact pfx_take _ _

/-- Where can an occurrence of `p` inside `y ++ z` sit?  Entirely inside `y`,
entirely inside `z`, or straddling the border, in which case a nonempty
proper prefix of `p` of some length `k` coincides with the length-`k`
suffix of `y`. -/
theorem split_across {p a b y z : List Char} (h : a ++ p ++ b = y ++ z) :
    p <:+: y ∨ p <:+: z ∨
      ∃ k, 1 ≤ k ∧ k ≤ y.length ∧ k < p.length ∧ p.take k = y.drop (y.length - k) := by
  have h' : a ++ (p ++ b) = y ++ z := by rw [← List.append_assoc]; exact h
  by_cases hay : a.length ≤ y.length
  · have hpb : p ++ b = (y ++ z).drop a.length := by
      rw [← h', List.drop_left]
    rw [List.drop_append_of_le_length hay] at hpb
    by_cases hpl : p.length ≤ y.length - a.length
    · left
      have h2 : p <+: y.drop a.length ++ z := ⟨b, hpb⟩
      have h3 : p <+: y.drop a.length :=
        pfx_of_append_le h2 (by rw [List.length_drop]; omega)
      obtain ⟨t, ht⟩ := h3
      exact ⟨y.take a.length, t, by
        rw [List.append_assoc, ht, List.take_append_drop]⟩
    · by_cases hk0 : y.length - a.length = 0
      · right; left
        have hdrop : y.drop a.length = [] := List.drop_of_length_le (by omega)
        rw [hdrop, List.nil_append] at hpb
        exact ⟨[], b, by simpa using hpb⟩
      · right; right
        refine ⟨y.length - a.length, by omega, by omega, by omega, ?_⟩
        have ha : y.length - (y.length - a.length) = a.length := by omega
        rw [ha]
        have h4 : (p ++ b).take (y.length - a.length) =
            (y.drop a.length ++ z).take (y.length - a.length) := by rw [hpb]
        rw [List.take_append_of_le_length (by omega)] at h4
        rw [List.take_left' (by rw [List.length_drop])] at h4
        exact h4
  · right; left
    have hz : z = (a ++ (p ++ b)).drop y.length := by
      rw [h', List.drop_left]
    rw [List.drop_append_of_le_length (by omega)] at hz
    exact ⟨a.drop y.length, b, by rw [List.append_assoc]; exact hz.symm⟩

/-- If a (nonempty, proper) tail `p.drop j` of a pattern `p` that cannot
straddle the border of `rep` is a prefix of the rewrite's output, then it
was already a prefix of the input. -/
theorem pfx_drop_raGo (pat rep p : List Char)
    (hst : ∀ k, 1 ≤ k → k < p.length → ¬ (p.drop k <+: rep) ∧ ¬ (rep <+: p.drop k)) :
    ∀ n s j, s.length ≤ n → 1 ≤ j → j < p.length →
      p.drop j <+: raGo pat rep n s → p.drop j <+: s := by
  intro n
  induction n with
  | zero =>
      intro s j hn _ _ hp
      cases s with
      | nil => exact hp
      | cons c s => exact absurd hn (by simp)
  | succ n ih =>
      intro s j hn hj1 hj2 hp
      cases s with
      | nil => exact hp
      | cons c s =>
          simp only [raGo] at hp
          by_cases hm : pat.isPrefixOf (c :: s) ∧ pat ≠ []
          · rw [if_pos hm] at hp
            have hlen : (p.drop j).length = p.length - j := List.length_drop j p
            by_cases hl : (p.drop j).length ≤ rep.length
            · exact absurd (pfx_of_append_le hp hl) (hst j hj1 hj2).1
            · exact absurd (pfx_append_ge hp (by omega)) (hst j hj1 hj2).2
          · rw [if_neg hm] at hp
            have hd : p.drop j = p[j] :: p.drop (j + 1) := List.drop_eq_getElem_cons hj2
            rw [hd] at hp
            obtain ⟨hc, hp'⟩ := pfx_cons_iff.mp hp
            by_cases hend : j + 1 < p.length
            · have h5 := ih s (j + 1) (by simpa using hn) (by omega) hend hp'
              rw [hd, hc]
              exact pfx_cons_iff.mpr ⟨rfl, h5⟩
            · have hnil : p.drop (j + 1) = [] := List.drop_of_length_le (by omega)
              rw [hd, hc, hnil]
              exact pfx_cons_iff.mpr ⟨rfl, ⟨s, rfl⟩⟩

/-- Non-reintroduction: when the pattern cannot overlap the replacement in
any of the three border ways, the output of the rewrite contains no
occurrence of the pattern at all. -/
theorem raGo_self_free (pat rep : List Char) (h0 : pat ≠ [])
    (h1 : ¬ pat <:+: rep)
    (hst : ∀ k, 1 ≤ k → k < pat.length → ¬ (pat.drop k <+: rep) ∧ ¬ (rep <+: pat.drop k))
    (hbd : ∀ k, 1 ≤ k → k ≤ rep.length → k < pat.length →
      pat.take k ≠ rep.drop (rep.length - k)) :
    ∀ n s, s.length ≤ n → ¬ pat <:+: raGo pat rep n s := by
  intro n
  induction n with
  | zero =>
      intro s hn
      cases s with
      | nil => exact not_infx_nil h0
      | cons c s => exact absurd hn (by simp)
  | succ n ih =>
      intro s hn
      cases s with
      | nil => exact not_infx_nil h0
      | cons c s =>
          simp only [raGo]
          by_cases hm : pat.isPrefixOf (c :: s) ∧ pat ≠ []
          · rw [if_pos hm]
            rintro ⟨a, b, hab⟩
            rcases split_across hab with hy | hz | ⟨k, hk1, hk2, hk3, hk4⟩
            · exact h1 hy
            · have hln : (s.drop (pat.length - 1)).length ≤ n := by
                have := List.length_drop (pat.length - 1) s
                have hn' : s.length + 1 ≤ n + 1 := by simpa using hn
                omega
              exact ih (s.drop (pat.length - 1)) hln hz
            · exact hbd k hk1 hk2 hk3 hk4
          · rw [if_neg hm]
            intro hocc
            rcases infx_cons_iff.mp hocc with hpfx | hT
            · cases pat with
              | nil => exact h0 rfl
              | cons pc p1 =>
                  obtain ⟨hc, hp1⟩ := pfx_cons_iff.mp hpfx
                  subst hc
                  by_cases h11 : p1 = []
                  · subst h11
                    exact hm ⟨isPrefixOf_iff.mpr (pfx_cons_iff.mpr ⟨rfl, ⟨s, rfl⟩⟩), h0⟩
                  · have hj2 : 1 < (pc :: p1).length := by
                      have := List.length_pos.mpr h11
                      simp only [List.length_cons]
                      omega
                    have hp1' : (pc :: p1).drop 1 <+: raGo (pc :: p1) rep n s := by
                      simpa using hp1
                    have h6 := pfx_drop_raGo (pc :: p1) rep (pc :: p1) hst n s 1
                      (by simpa using hn) (le_refl 1) hj2 hp1'
                    have h7 : p1 <+: s := by simpa using h6
                    exact hm ⟨isPrefixOf_iff.mpr (pfx_cons_iff.mpr ⟨rfl, h7⟩), h0⟩
            · exact ih s (by simpa using hn) hT

/-- Non-introduction: a second pattern `p2` that does not occur in the input
and cannot overlap the replacement in any border way does not occur in the
rewrite's output either. -/
theorem raGo_other_free (pat rep p2 : List Char) (hp2 : p2 ≠ [])
    (h1 : ¬ p2 <:+: rep)
    (hst : ∀ k, 1 ≤ k → k < p2.length → ¬ (p2.drop k <+: rep) ∧ ¬ (rep <+: p2.drop k))
    (hbd : ∀ k, 1 ≤ k → k ≤ rep.length → k < p2.length →
      p2.take k ≠ rep.drop (rep.length - k)) :
    ∀ n s, s.length ≤ n → ¬ p2 <:+: s → ¬ p2 <:+: raGo pat rep n s := by
  intro n
  induction n with
  | zero =>
      intro s _ hs
      cases s with
      | nil => exact hs
      | cons c s => exact hs
  | succ n ih =>
      intro s hn hs
      cases s with
      | nil => exact hs
      | cons c s =>
          simp only [raGo]
          by_cases hm : pat.isPrefixOf (c :: s) ∧ pat ≠ []
          · rw [if_pos hm]
            rintro ⟨a, b, hab⟩
            rcases split_across hab with hy | hz | ⟨k, hk1, hk2, hk3, hk4⟩
            · exact h1 hy
            · have hs' : ¬ p2 <:+: s.drop (pat.length - 1) := by
                intro hc
                exact hs (hc.trans ⟨c :: s.take (pat.length - 1), [], by simp⟩)
              have hln : (s.drop (pat.length - 1)).length ≤ n := by
                have := List.length_drop (pat.length - 1) s
                have hn' : s.length + 1 ≤ n + 1 := by simpa using hn
                omega
              exact ih (s.drop (pat.length - 1)) hln hs' hz
            · exact hbd k hk1 hk2 hk3 hk4
          · rw [if_neg hm]
            intro hocc
            rcases infx_cons_iff.mp hocc with hpfx | hT
            · cases p2 with
              | nil => exact hp2 rfl
              | cons pc p1 =>
                  obtain ⟨hc, hp1⟩ := pfx_cons_iff.mp hpfx
                  subst hc
                  by_cases h11 : p1 = []
                  · subst h11
                    exact hs (infx_of_pfx (pfx_cons_iff.mpr ⟨rfl, ⟨s, rfl⟩⟩))
                  · have hj2 : 1 < (pc :: p1).length := by
                      have := List.length_pos.mpr h11
                      simp only [List.length_cons]
                      omega
                    have hp1' : (pc :: p1).drop 1 <+: raGo pat rep n s := by
                      simpa using hp1
                    have h6 := pfx_drop_raGo pat rep (pc :: p1) hst n s 1
                      (by simpa using hn) (le_refl 1) hj2 hp1'
                    have h7 : p1 <+: s := by simpa using h6
                    exact hs (infx_of_pfx (pfx_cons_iff.mpr ⟨rfl, h7⟩))
            · exact ih s (by simpa using hn)
                (fun hc => hs (infx_cons_iff.mpr (Or.inr hc))) hT

theorem replaceAll_self_free {pat rep : List Char} (h0 : pat ≠ [])
    (h1 : ¬ pat <:+: rep)
    (hst : ∀ k, 1 ≤ k → k < pat.length → ¬ (pat.drop k <+: rep) ∧ ¬ (rep <+: pat.drop k))
    (hbd : ∀ k, 1 ≤ k → k ≤ rep.length → k < pat.length →
      pat.take k ≠ rep.drop (rep.length - k))
    (s : List Char) : ¬ pat <:+: replaceAll pat rep s :=
  raGo_self_free pat rep h0 h1 hst hbd s.length s (le_refl _)

theorem replaceAll_other_free {pat rep p2 : List Char} (hp2 : p2 ≠ [])
    (h1 : ¬ p2 <:+: rep)
    (hst : ∀ k, 1 ≤ k → k < p2.length → ¬ (p2.drop k <+: rep) ∧ ¬ (rep <+: p2.drop k))
    (hbd : ∀ k, 1 ≤ k → k ≤ rep.length → k < p2.length →
      p2.take k ≠ rep.drop (rep.length - k))
    {s : List Char} (hs : ¬ p2 <:+: s) : ¬ p2 <:+: replaceAll pat rep s :=
  raGo_other_free pat rep p2 hp2 h1 hst hbd s.length s (le_refl _) hs

/-- Idempotence of a single replacement under the border conditions. -/
theorem replaceAll_idem {pat rep : List Char} (h0 : pat ≠ [])
    (h1 : ¬ pat <:+: rep)
    (hst : ∀ k, 1 ≤ k → k < pat.length → ¬ (pat.drop k <+: rep) ∧ ¬ (rep <+: pat.drop k))
    (hbd : ∀ k, 1 ≤ k → k ≤ rep.length → k < pat.length →
      pat.take k ≠ rep.drop (rep.length - k))
    (s : List Char) :
    replaceAll pat rep (replaceAll pat rep s) = replaceAll pat rep s :=
  replaceAll_of_not_occurs (replaceAll_self_free h0 h1 hst hbd s)

/-- Decidable check of the "no straddling overlap" side conditions. -/
def straddleFreeB (p rep : List Char) : Bool :=
  (List.range p.length).all fun k =>
    k == 0 || (!(p.drop k).isPrefixOf rep && !rep.isPrefixOf (p.drop k))

/-- Decidable check of the "no border re-assembly" side conditions. -/
def borderFreeB (p rep : List Char) : Bool :=
  (List.range p.length).all fun k =>
    k == 0 || decide (rep.length < k) || !(p.take k == rep.drop (rep.length - k))

theorem straddleFree_spec {p rep : List Char} (h : straddleFreeB p rep = true) :
    ∀ k, 1 ≤ k → k < p.length → ¬ (p.drop k <+: rep) ∧ ¬ (rep <+: p.drop k) := by
  intro k hk1 hk2
  have hmem : k ∈ List.range p.length := List.mem_range.mpr hk2
  have h2 := List.all_eq_true.mp h k hmem
  simp only [Bool.or_eq_true, beq_iff_eq, Bool.and_eq_true, Bool.not_eq_true'] at h2
  rcases h2 with h2 | ⟨ha, hb⟩
  · omega
  · constructor
    · intro hc
      rw [isPrefixOf_iff.mpr hc] at ha
      exact Bool.noConfusion ha
    · intro hc
      rw [isPrefixOf_iff.mpr hc] at hb
      exact Bool.noConfusion hb

theorem borderFree_spec {p rep : List Char} (h : borderFreeB p rep = true) :
    ∀ k, 1 ≤ k → k ≤ rep.length → k < p.length →
      p.take k ≠ rep.drop (rep.length - k) := by
  intro k hk1 hk2 hk3
  have hmem : k ∈ List.range p.length := List.mem_range.mpr hk3
  have h2 := List.all_eq_true.mp h k hmem
  intro hc
  have hk0 : (k == 0) = false := beq_eq_false_iff_ne.mpr (by omega)
  have hlt : (decide (rep.length < k)) = false := decide_eq_false (by omega)
  rw [hk0, hlt, hc] at h2
  simp at h2

/-! ## File model

A text file is represented by its newline-terminated lines (stored without
the trailing newline) plus the final unterminated fragment (`[]` when the
file ends with a newline, as vendor files normally do).  Python's
`for line in f` yields each terminated line (with its newline) and then the
fragment; since every literal the plugin replaces is newline-free, applying
the per-line edit to the stored line (without its newline) and re-joining
is byte-for-byte the same as Python's loop. -/

structure FileData where
  lines : List (List Char)
  frag : List Char
deriving DecidableEq

def joinNL (ls : List (List Char)) : List Char :=
  (ls.map (fun l => l ++ ['\n'])).flatten

def fileText (d : FileData) : List Char := joinNL d.lines ++ d.frag

def mapFile (f : List Char → List Char) (d : FileData) : FileData :=
  ⟨d.lines.map f, f d.frag⟩

/-- Split a text back into newline-terminated lines and final fragment
(the inverse of `fileText` on well-formed data). -/
def splitLines : List Char → List (List Char) × List Char
  | [] => ([], [])
  | c :: s =>
      let p := splitLines s
      if c = '\n' then ([] :: p.1, p.2)
      else
        match p.1 with
        | l :: ls => ((c :: l) :: ls, p.2)
        | [] => ([], c :: p.2)

/-! ## Constants of the plugin (verbatim from the source) -/

def pfetId : List Char := "pfet_01v8_hvt".toList
def nfetId : List Char := "nfet_01v8".toList
def calibre_pmos : List Char := "phighvt".toList
def calibre_nmos : List Char := "nshort".toList
def netgen_pmos : List Char := "sky130_fd_pr__pfet_01v8_hvt".toList
def netgen_nmos : List Char := "sky130_fd_pr__nfet_01v8".toList

def wirePat : List Char := "wire 1".toList
def wireRep : List Char := "// wire 1".toList
def endifPat : List Char := "`endif SKY130_FD_SC_HD__LPFLOW_BLEEDER_FUNCTIONAL_V".toList
def endifRep : List Char := "`endif // SKY130_FD_SC_HD__LPFLOW_BLEEDER_FUNCTIONAL_V".toList
def dnNone : List Char := "`default_nettype none".toList
def dnWire : List Char := "`default_nettype wire".toList

def tlefMarker : List Char := "END pwell".toList

/-- `_the_tlef_edit` (source lines 237-241). -/
def the_tlef_edit : List Char := "\nLAYER licon\n  TYPE CUT ;\nEND licon\n".toList

/-- `LVS_DECK_SCRUB_LINES` (source lines 243-250). -/
def LVS_DECK_SCRUB_LINES : List (List Char) :=
  ["VIRTUAL CONNECT REPORT".toList,
   "SOURCE PRIMARY".toList,
   "SOURCE SYSTEM SPICE".toList,
   "SOURCE PATH".toList,
   "ERC".toList,
   "LVS REPORT".toList]

/-- `LVS_DECK_INSERT_LINES` (source lines 252-255). -/
def LVS_DECK_INSERT_LINES : List Char :=
  "\nLVS FILTER D  OPEN  SOURCE\nLVS FILTER D  OPEN  LAYOUT\n".toList

/-! ## setup_cdl (source lines 38-70) -/

/-- The tool-specific replacement pair chosen by `setup_cdl`
(source lines 53-58); `none` means the copy-through branch (line 60). -/
def cdl_replacements (lvs_tool : String) : Option (List Char × List Char) :=
  if lvs_tool = "hammer.lvs.calibre" then some (calibre_pmos, calibre_nmos)
  else if lvs_tool = "hammer.lvs.netgen" then some (netgen_pmos, netgen_nmos)
  else none

/-- The per-line edit of `setup_cdl` (source lines 67-69):
`line.replace('pfet_01v8_hvt', pmos).replace('nfet_01v8', nmos)`. -/
def setup_cdl_line (pmos nmos l : List Char) : List Char :=
  replaceAll nfetId nmos (replaceAll pfetId pmos l)

/-- `setup_cdl` on a whole file: a supported LVS tool rewrites every line;
any other configured tool copies the file byte-for-byte (`shutil.copy2`). -/
def setup_cdl_file (lvs_tool : String) (d : FileData) : FileData :=
  match cdl_replacements lvs_tool with
  | none => d
  | some pr => mapFile (setup_cdl_line pr.1 pr.2) d

/-! ## setup_verilog (source lines 76-113) -/

/-- The per-line edit of the library-Verilog rewrite (source lines 94-95). -/
def setup_verilog_line (l : List Char) : List Char :=
  replaceAll endifPat endifRep (replaceAll wirePat wireRep l)

def setup_verilog_file (d : FileData) : FileData := mapFile setup_verilog_line d

/-- The per-line edit of the primitives.v rewrite (source line 112). -/
def setup_primitives_line (l : List Char) : List Char := replaceAll dnNone dnWire l

def setup_primitives_file (d : FileData) : FileData := mapFile setup_primitives_line d

/-! ## setup_techlef (source lines 116-134) -/

/-- Python `str.strip()`: whitespace removed from both ends. -/
def pyStrip (l : List Char) : List Char :=
  ((l.dropWhile Char.isWhitespace).reverse.dropWhile Char.isWhitespace).reverse

/-- `setup_techlef`'s write (source lines 131-134): each line is echoed and
the fixed block follows any line that strips to the marker.  The final
fragment is only compared when the file does not end with a newline
(Python then iterates it as the last, newline-less line). -/
def setup_techlef_text (d : FileData) : List Char :=
  (d.lines.map (fun l =>
      l ++ '\n' :: (if pyStrip l = tlefMarker then the_tlef_edit else []))).flatten
    ++ d.frag
    ++ (if d.frag ≠ [] ∧ pyStrip d.frag = tlefMarker then the_tlef_edit else [])

/-! ## setup_lvs_deck (source lines 137-162) -/

def scrubHitB (l : List Char) : Bool :=
  LVS_DECK_SCRUB_LINES.any (fun p => containsB p l)

/-- The text written for one LVS deck (source lines 157-162).

The Python code compiles `'.*(P1|...|P6).*\n'` (no IGNORECASE flag) and
substitutes every match by the empty string, then appends
`LVS_DECK_INSERT_LINES`.  Because `.` does not match a newline and none of
the six literals contains one, every match of the pattern is exactly one
newline-terminated line that contains one of the literals (matching starts
at the beginning of such a line, the two greedy `.*` keep the match inside
it, and the final `\n` consumes its newline); a final line without a
newline can never match.  Hence the substitution deletes precisely the
newline-terminated lines containing a scrub literal, case-sensitively. -/
def setup_lvs_deck_text (d : FileData) : List Char :=
  joinNL (d.lines.filter (fun l => !scrubHitB l)) ++ d.frag ++ LVS_DECK_INSERT_LINES

/-! ## setup_io_lefs (source lines 165-188)

Here the list elements model the result of `sf.readlines()`: every element
keeps its trailing newline except possibly the last. -/

def portPat : List Char := "PORT".toList

/-- `'PORT' -> 'PORT\n      CLASS CORE ;'` (source line 187). -/
def portRep : List Char := "PORT\n      CLASS CORE ;".toList

def idxsWhereGo (p : List Char → Bool) : Nat → List (List Char) → List Nat
  | _, [] => []
  | i, l :: rest => (if p l then [i] else []) ++ idxsWhereGo p (i + 1) rest

/-- `[idx for idx, line in enumerate(sl) if p(line)]`. -/
def idxsWhere (p : List Char → Bool) (sl : List (List Char)) : List Nat :=
  idxsWhereGo p 0 sl

/-- The edit applied to a line selected by `port_idx` (source lines
185-187): lines containing `'PORT'` have every occurrence replaced. -/
def condPortEdit (l : List Char) : List Char :=
  if containsB portPat l then replaceAll portPat portRep l else l

def applyIntervalGo (s e : Nat) : Nat → List (List Char) → List (List Char)
  | _, [] => []
  | i, l :: rest =>
      (if s ≤ i ∧ i < e then condPortEdit l else l) :: applyIntervalGo s e (i + 1) rest

/-- One `intv` iteration (source lines 184-187): rewrite the lines with
index in `[s, e)` — the slice `sl[intv[0]:intv[1]]` includes the `PIN`
marker line itself and excludes the `END` marker line. -/
def applyInterval (s e : Nat) (sl : List (List Char)) : List (List Char) :=
  applyIntervalGo s e 0 sl

/-- One iteration of the `for net in ['VCCD1', 'VSSD1']` loop (source
lines 180-187): marker indices are computed up front by substring search,
paired positionally with `zip`, and the intervals are applied in order to
the (mutated) line list. -/
def setup_io_net (net : String) (sl : List (List Char)) : List (List Char) :=
  let starts := idxsWhere (containsB ("PIN " ++ net).toList) sl
  let stops := idxsWhere (containsB ("END " ++ net).toList) sl
  (starts.zip stops).foldl (fun acc iv => applyInterval iv.1 iv.2 acc) sl

/-- The full `setup_io_lefs` rewrite on the `readlines()` list. -/
def setup_io_lefs_lines (sl : List (List Char)) : List (List Char) :=
  setup_io_net "VSSD1" (setup_io_net "VCCD1" sl)

/-- `readlines()` of a file. -/
def ioRawLines (d : FileData) : List (List Char) :=
  d.lines.map (fun l => l ++ ['\n']) ++ (if d.frag = [] then [] else [d.frag])

/-- The text written by `setup_io_lefs` (`df.writelines(sl)`). -/
def setup_io_lefs_text (d : FileData) : List Char :=
  (setup_io_lefs_lines (ioRawLines d)).flatten

/-! ## Hook registry (source lines 190-216) -/

inductive HookKind where
  | post_insertion
  | pre_insertion
deriving DecidableEq

/-- A `HammerToolHookAction` produced by `make_post_insertion_hook` /
`make_pre_insertion_hook`: the targeted step, the splice kind, and the name
of the callback bound there (the flow engine's hook machinery is an
external collaborator; we record exactly the data the plugin supplies). -/
structure HookAction where
  step : String
  kind : HookKind
  callback : String
deriving DecidableEq

/-- The configuration flags the three hook lookups read. -/
structure HookConfig where
  drc_blackbox_srams : Bool
  lvs_blackbox_srams : Bool
  use_sram22 : Bool
deriving DecidableEq

/-- `get_tech_par_hooks` (source lines 190-198). -/
def get_tech_par_hooks (tool_name : String) : List HookAction :=
  if tool_name = "innovus" then
    [⟨"init_design", .post_insertion, "sky130_innovus_settings"⟩,
     ⟨"place_tap_cells", .pre_insertion, "sky130_add_endcaps"⟩,
     ⟨"power_straps", .pre_insertion, "sky130_connect_nets"⟩,
     ⟨"write_design", .pre_insertion, "sky130_connect_nets2"⟩]
  else []

/-- `get_tech_drc_hooks` (source lines 200-206). -/
def get_tech_drc_hooks (cfg : HookConfig) (tool_name : String) : List HookAction :=
  let calibre_hooks :=
    if cfg.drc_blackbox_srams then
      [⟨"generate_drc_run_file", HookKind.post_insertion, "drc_blackbox_srams"⟩]
    else []
  if tool_name = "calibre" then calibre_hooks else []

/-- `get_tech_lvs_hooks` (source lines 208-216). -/
def get_tech_lvs_hooks (cfg : HookConfig) (tool_name : String) : List HookAction :=
  let calibre_hooks :=
    (if cfg.use_sram22 then
      [⟨"generate_lvs_run_file", HookKind.post_insertion, "sram22_lvs_recognize_gates_all"⟩]
     else [])
    ++ (if cfg.lvs_blackbox_srams then
      [⟨"generate_lvs_run_file", HookKind.post_insertion, "lvs_blackbox_srams"⟩]
     else [])
  if tool_name = "calibre" then calibre_hooks else []

/-! ## sky130_connect_nets / sky130_connect_nets2 (source lines 317-331) -/

structure PGNet where
  name : String
  tie : Option String
deriving DecidableEq

/-- The tool-state a `connect nets` callback reads: the configured power
and ground nets (`ht.get_all_power_nets()` / `ht.get_all_ground_nets()`). -/
structure PARState where
  power_nets : List PGNet
  ground_nets : List PGNet
deriving DecidableEq

/-- The two directives emitted for one tie-aliased net (source lines
322-323), with the `{tie}`/`{net}` format holes filled in. -/
def connect_net_cmds (n : PGNet) : List String :=
  match n.tie with
  | some t =>
      ["connect_global_net " ++ t ++ " -type pg_pin -pin_base_name " ++ n.name
         ++ " -all -auto_tie -netlist_override",
       "connect_global_net " ++ t ++ " -type net    -net_base_name " ++ n.name
         ++ " -all -netlist_override"]
  | none => []

/-- `sky130_connect_nets` (source lines 317-324): the sequence of
directives appended to the tool, in loop order. -/
def sky130_connect_nets (st : PARState) : List String :=
  (st.power_nets ++ st.ground_nets).foldl (fun acc n => acc ++ connect_net_cmds n) []

/-- `sky130_connect_nets2` (source lines 329-331): it just calls
`sky130_connect_nets` on the same tool. -/
def sky130_connect_nets2 (st : PARState) : List String :=
  sky130_connect_nets st

/-! ## Filesystem model for setup error handling (claims C4, C5)

`post_install_script` (source lines 25-35) runs the five artifact setups in
order; every `FileNotFoundError` raise is modelled as a fatal message, and
every file write as a `(destination path, text)` pair, in program order.
An operation's output lists the writes it performed before it (possibly)
raised; nothing is caught, so the sequencing combinator stops at the first
fatal operation. -/

structure SkyFS where
  files : String → Option FileData

structure SkyConfig where
  sky130A : String
  cache_dir : String
  lvs_tool : String
  use_nda_files : Bool
  lvs_deck_sources : List String
  lvs_decks : List String
  expand_tech_cache_path : String → String

/-- `self.library_name` (source line 26). -/
def library_name : String := "sky130_fd_sc_hd"

def cdl_source (cfg : SkyConfig) : String :=
  cfg.sky130A ++ "/libs.ref/" ++ library_name ++ "/cdl/" ++ library_name ++ ".cdl"

def verilog_source (cfg : SkyConfig) : String :=
  cfg.sky130A ++ "/libs.ref/" ++ library_name ++ "/verilog/" ++ library_name ++ ".v"

def primitives_source (cfg : SkyConfig) : String :=
  cfg.sky130A ++ "/libs.ref/" ++ library_name ++ "/verilog/primitives.v"

def techlef_source (cfg : SkyConfig) : String :=
  cfg.sky130A ++ "/libs.ref/" ++ library_name ++ "/techlef/" ++ library_name ++ "__nom.tlef"

def io_lef_source (cfg : SkyConfig) : String :=
  cfg.sky130A ++ "/libs.ref/sky130_fd_io/lef/sky130_ef_io.lef"

structure OpOut where
  writes : List (String × List Char)
  errors : List String
  fatal : Option String
deriving DecidableEq

/-- `setup_cdl` (source lines 38-70): existence check, then one write. -/
def setup_cdl_run (fs : SkyFS) (cfg : SkyConfig) : OpOut :=
  match fs.files (cdl_source cfg) with
  | none => ⟨[], [], some ("CDL not found: " ++ cdl_source cfg)⟩
  | some d =>
      ⟨[(cfg.cache_dir ++ "/" ++ library_name ++ ".cdl",
         fileText (setup_cdl_file cfg.lvs_tool d))], [], none⟩

/-- `setup_verilog` (source lines 76-113): the library Verilog is checked
and written first, then primitives.v is checked and written. -/
def setup_verilog_run (fs : SkyFS) (cfg : SkyConfig) : OpOut :=
  match fs.files (verilog_source cfg) with
  | none => ⟨[], [], some ("Verilog not found: " ++ verilog_source cfg)⟩
  | some d1 =>
      let w1 := (cfg.cache_dir ++ "/" ++ library_name ++ ".v",
                 fileText (setup_verilog_file d1))
      match fs.files (primitives_source cfg) with
      | none => ⟨[w1], [], some ("Verilog not found: " ++ primitives_source cfg)⟩
      | some d2 =>
          ⟨[w1, (cfg.cache_dir ++ "/primitives.v",
                 fileText (setup_primitives_file d2))], [], none⟩

/-- `setup_techlef` (source lines 116-134). -/
def setup_techlef_run (fs : SkyFS) (cfg : SkyConfig) : OpOut :=
  match fs.files (techlef_source cfg) with
  | none => ⟨[], [], some ("Tech-LEF not found: " ++ techlef_source cfg)⟩
  | some d =>
      ⟨[(cfg.cache_dir ++ "/" ++ library_name ++ "__nom.tlef",
         setup_techlef_text d)], [], none⟩

/-- `setup_io_lefs` (source lines 165-188). -/
def setup_io_lefs_run (fs : SkyFS) (cfg : SkyConfig) : OpOut :=
  match fs.files (io_lef_source cfg) with
  | none => ⟨[], [], some ("IO LEF not found: " ++ io_lef_source cfg)⟩
  | some d =>
      ⟨[(cfg.cache_dir ++ "/sky130_ef_io.lef", setup_io_lefs_text d)], [], none⟩

/-- The error logged on a missing deck source (source lines 151-152). -/
def lvs_deck_err (deck : String) : String :=
  "No corresponding source for LVS deck " ++ deck

/-- The `for i in range(len(lvs_decks))` loop of `setup_lvs_deck` (source
lines 146-162), faithful to the control flow: on `IndexError` the error is
logged but there is no `continue`, so the loop falls through and keeps the
`source_path` of the previous iteration; if no previous iteration assigned
it, Python raises `UnboundLocalError`.  The third argument carries that
leftover `source_path`. -/
def lvs_deck_loop (fs : SkyFS) (cfg : SkyConfig) :
    List String → Nat → Option String → OpOut
  | [], _, _ => ⟨[], [], none⟩
  | deck :: rest, i, prev =>
      match cfg.lvs_deck_sources[i]? with
      | some p =>
          match fs.files p with
          | none => ⟨[], [], some ("LVS deck not found: " ++ p)⟩
          | some dd =>
              let out := lvs_deck_loop fs cfg rest (i + 1) (some p)
              ⟨(cfg.expand_tech_cache_path deck, setup_lvs_deck_text dd) :: out.writes,
               out.errors, out.fatal⟩
      | none =>
          match prev with
          | none => ⟨[], [lvs_deck_err deck], some "UnboundLocalError: source_path"⟩
          | some p =>
              match fs.files p with
              | none => ⟨[], [lvs_deck_err deck], some ("LVS deck not found: " ++ p)⟩
              | some dd =>
                  let out := lvs_deck_loop fs cfg rest (i + 1) (some p)
                  ⟨(cfg.expand_tech_cache_path deck, setup_lvs_deck_text dd) :: out.writes,
                   lvs_deck_err deck :: out.errors, out.fatal⟩

/-- `setup_lvs_deck` (source lines 137-162): a no-op without the NDA tree. -/
def setup_lvs_deck_run (fs : SkyFS) (cfg : SkyConfig) : OpOut :=
  if cfg.use_nda_files then lvs_deck_loop fs cfg cfg.lvs_decks 0 none
  else ⟨[], [], none⟩

/-- Run `a` then `b`, stopping (like an uncaught exception) if `a` was
fatal; writes and logged errors accumulate in program order. -/
def seqOp (a b : OpOut) : OpOut :=
  match a.fatal with
  | some _ => a
  | none => ⟨a.writes ++ b.writes, a.errors ++ b.errors, b.fatal⟩

/-- `post_install_script` (source lines 25-35): the five setups in order. -/
def post_install_script (fs : SkyFS) (cfg : SkyConfig) : OpOut :=
  seqOp (setup_cdl_run fs cfg)
    (seqOp (setup_verilog_run fs cfg)
      (seqOp (setup_techlef_run fs cfg)
        (seqOp (setup_lvs_deck_run fs cfg) (setup_io_lefs_run fs cfg))))

/-! ## Spec-side helpers (used only to state claims, not taken from the
source) -/

def isWordChar (c : Char) : Bool := c.isAlphanum || c == '_'

/-- Spec-side notion for claim C1's "occurs as a whole token": an
occurrence of `pat` in `s` not flanked by identifier characters.  Defined
from the claim's words; the source performs plain substring replacement. -/
def occursAsTokenB (pat s : List Char) : Bool :=
  (List.range (s.length + 1)).any fun i =>
    pat.isPrefixOf (s.drop i)
    && (i == 0 || !(isWordChar (s.getD (i - 1) ' ')))
    && (decide (s.length ≤ i + pat.length) || !(isWordChar (s.getD (i + pat.length) ' ')))

/-- Number of positions of `s` at which `pat` occurs (spec-side counting
helper for claim C7). -/
def countOcc (pat : List Char) : List Char → Nat
  | [] => if pat.isPrefixOf [] then 1 else 0
  | c :: s => (if pat.isPrefixOf (c :: s) then 1 else 0) + countOcc pat s

/-! ## Theorems -/

theorem foldl_append_cmds (nets : List PGNet) (acc : List String) :
    nets.foldl (fun a n => a ++ connect_net_cmds n) acc
      = acc ++ (nets.map connect_net_cmds).flatten := by
  induction nets generalizing acc with
  | nil => simp
  | cons n nets ih => simp [List.foldl_cons, ih, List.append_assoc]

theorem connect_cmds_flatten_length (nets : List PGNet) :
    ((nets.map connect_net_cmds).flatten).length
      = 2 * (nets.filter (fun n => n.tie.isSome)).length := by
  induction nets with
  | nil => rfl
  | cons n nets ih =>
      cases hn : n.tie with
      | none => simp [connect_net_cmds, hn, ih, List.filter_cons]
      | some t =>
          simp only [List.map_cons, List.flatten_cons, List.length_append,
            connect_net_cmds, hn, ih, List.filter_cons]
          simp
          omega

/-- Claim C10: the callback bound before design write-out
(`sky130_connect_nets2`) emits, for every tool state, exactly the same
sequence of global-net-connection directives as the callback bound before
power straps (`sky130_connect_nets`): two directives per configured power
or ground net with a declared (non-None) tie alias, and none for nets
without one. -/
theorem sky130_connect_nets2_matches (st : PARState) :
    sky130_connect_nets2 st = sky130_connect_nets st
    ∧ sky130_connect_nets st
        = ((st.power_nets ++ st.ground_nets).map connect_net_cmds).flatten
    ∧ (sky130_connect_nets st).length
        = 2 * ((st.power_nets ++ st.ground_nets).filter (fun n => n.tie.isSome)).length
    ∧ (∀ n ∈ st.power_nets ++ st.ground_nets, n.tie = none → connect_net_cmds n = []) := by
  refine ⟨rfl, ?_, ?_, ?_⟩
  · rw [sky130_connect_nets, foldl_append_cmds, List.nil_append]
  · rw [sky130_connect_nets, foldl_append_cmds, List.nil_append,
      connect_cmds_flatten_length]
  · intro n _ hn
    simp [connect_net_cmds, hn]

def st0 : PARState := ⟨[⟨"VDD", some "VPWR"⟩], [⟨"VSS", none⟩]⟩

/-- Witness for claim C10 at a concrete tool state. -/
theorem sky130_connect_nets2_matches_witness :
    sky130_connect_nets2 st0 = sky130_connect_nets st0
    ∧ connect_net_cmds ⟨"VSS", none⟩ = [] :=
  ⟨(sky130_connect_nets2_matches st0).1,
   (sky130_connect_nets2_matches st0).2.2.2 ⟨"VSS", none⟩ (by decide) rfl⟩

/-- Claim C9: each of the three hook-registry lookups returns the declared
ordered binding list for a registered tool name, and the empty list — never
an error (the lookups are total functions) — for any other name. -/
theorem hook_lookup_contract (cfg : HookConfig) (tool : String) :
    (tool ≠ "innovus" → get_tech_par_hooks tool = [])
    ∧ get_tech_par_hooks "innovus"
        = [⟨"init_design", .post_insertion, "sky130_innovus_settings"⟩,
           ⟨"place_tap_cells", .pre_insertion, "sky130_add_endcaps"⟩,
           ⟨"power_straps", .pre_insertion, "sky130_connect_nets"⟩,
           ⟨"write_design", .pre_insertion, "sky130_connect_nets2"⟩]
    ∧ (tool ≠ "calibre" →
        get_tech_drc_hooks cfg tool = [] ∧ get_tech_lvs_hooks cfg tool = [])
    ∧ get_tech_drc_hooks cfg "calibre"
        = (if cfg.drc_blackbox_srams then
            [⟨"generate_drc_run_file", .post_insertion, "drc_blackbox_srams"⟩]
          else [])
    ∧ get_tech_lvs_hooks cfg "calibre"
        = (if cfg.use_sram22 then
            [⟨"generate_lvs_run_file", .post_insertion, "sram22_lvs_recognize_gates_all"⟩]
          else [])
          ++ (if cfg.lvs_blackbox_srams then
            [⟨"generate_lvs_run_file", .post_insertion, "lvs_blackbox_srams"⟩]
          else []) := by
  refine ⟨fun h => by simp [get_tech_par_hooks, h], by simp [get_tech_par_hooks],
    fun h => ⟨by simp [get_tech_drc_hooks, h], by simp [get_tech_lvs_hooks, h]⟩,
    by simp [get_tech_drc_hooks], by simp [get_tech_lvs_hooks]⟩

/-- Witness for claim C9: unrecognized tool names get the empty list. -/
theorem hook_lookup_contract_witness :
    get_tech_par_hooks "yosys" = []
    ∧ get_tech_drc_hooks ⟨true, true, true⟩ "pegasus" = []
    ∧ get_tech_lvs_hooks ⟨true, true, true⟩ "pegasus" = [] :=
  ⟨(hook_lookup_contract ⟨true, true, true⟩ "yosys").1 (by decide),
   ((hook_lookup_contract ⟨true, true, true⟩ "pegasus").2.2.1 (by decide)).1,
   ((hook_lookup_contract ⟨true, true, true⟩ "pegasus").2.2.1 (by decide)).2⟩

/-- Claim C2 counterexample: on the single-line file "wire 1" the primary
behavioral-model rewrite of `setup_verilog` is not idempotent — the first
pass rewrites the line to "// wire 1" and a second pass rewrites that to
"// // wire 1". -/
theorem setup_verilog_not_idempotent :
    setup_verilog_file (setup_verilog_file ⟨[wirePat], []⟩)
      ≠ setup_verilog_file ⟨[wirePat], []⟩ := by decide

theorem setup_verilog_line_fix {l : List Char} (h : ¬ wirePat <:+: l) :
    setup_verilog_line (setup_verilog_line l) = setup_verilog_line l := by
  have h1 : replaceAll wirePat wireRep l = l := replaceAll_of_not_occurs h
  have hl' : setup_verilog_line l = replaceAll endifPat endifRep l := by
    rw [setup_verilog_line, h1]
  have hst := @straddleFree_spec endifPat endifRep (by decide)
  have hbd := @borderFree_spec endifPat endifRep (by decide)
  have h0 : endifPat ≠ [] := by decide
  have h2 : ¬ endifPat <:+: endifRep := containsB_eq_false_iff.mp (by decide)
  have hwst := @straddleFree_spec wirePat endifRep (by decide)
  have hwbd := @borderFree_spec wirePat endifRep (by decide)
  have hw0 : wirePat ≠ [] := by decide
  have hw2 : ¬ wirePat <:+: endifRep := containsB_eq_false_iff.mp (by decide)
  have hnowire : ¬ wirePat <:+: replaceAll endifPat endifRep l :=
    replaceAll_other_free hw0 hw2 hwst hwbd h
  have hnoendif : ¬ endifPat <:+: replaceAll endifPat endifRep l :=
    replaceAll_self_free h0 h2 hst hbd l
  rw [hl', setup_verilog_line, replaceAll_of_not_occurs hnowire,
    replaceAll_of_not_occurs hnoendif]

/-- Claim C2 (amended): the rewrite is not idempotent on lines containing
the substring "wire 1" (each pass prepends another "// "); it is idempotent
on every file none of whose lines (nor final fragment) contains "wire 1" —
in particular the corrected conditional-compilation line stays corrected. -/
theorem setup_verilog_idem_on_wire_free (d : FileData)
    (h : ∀ l ∈ d.lines, ¬ wirePat <:+: l) (hf : ¬ wirePat <:+: d.frag) :
    setup_verilog_file (setup_verilog_file d) = setup_verilog_file d := by
  have h1 : (d.lines.map setup_verilog_line).map setup_verilog_line
      = d.lines.map setup_verilog_line := by
    rw [List.map_map]
    apply List.map_congr_left
    intro l hl
    exact setup_verilog_line_fix (h l hl)
  have h2 : setup_verilog_line (setup_verilog_line d.frag) = setup_verilog_line d.frag :=
    setup_verilog_line_fix hf
  simp [setup_verilog_file, mapFile, h1, h2]

/-- Witness for (amended) claim C2: idempotence on the file holding the
mismatched `endif line. -/
theorem setup_verilog_idem_on_wire_free_witness :
    setup_verilog_file (setup_verilog_file ⟨[endifPat], []⟩)
      = setup_verilog_file ⟨[endifPat], []⟩ :=
  setup_verilog_idem_on_wire_free ⟨[endifPat], []⟩
    (by
      intro l hl
      simp only [List.mem_singleton] at hl
      subst hl
      exact containsB_eq_false_iff.mp (by decide))
    (not_infx_nil (by decide))

/-- Claim C8 counterexample: a primitives file carrying the
`default_nettype directive on two lines has both of them rewritten, so the
rewrite does not change exactly one directive line for every input. -/
theorem setup_primitives_two_changed :
    (setup_primitives_file ⟨[dnNone, dnNone], []⟩).lines = [dnWire, dnWire]
    ∧ dnWire ≠ dnNone := by decide

/-- Claim C8 (amended): the shared-primitives rewrite preserves the line
count, rewrites exactly the lines containing the directive string (the
directive line itself becomes the wire form), and leaves every line and the
final fragment without that string byte-identical. -/
theorem setup_primitives_rewrite (d : FileData) :
    (setup_primitives_file d).lines.length = d.lines.length
    ∧ (∀ l ∈ d.lines, ¬ dnNone <:+: l → setup_primitives_line l = l)
    ∧ setup_primitives_line dnNone = dnWire
    ∧ (¬ dnNone <:+: d.frag → (setup_primitives_file d).frag = d.frag) := by
  refine ⟨by simp [setup_primitives_file, mapFile], ?_, by decide, ?_⟩
  · intro l _ hocc
    exact replaceAll_of_not_occurs hocc
  · intro hocc
    show setup_primitives_line d.frag = d.frag
    exact replaceAll_of_not_occurs hocc

def primsW : FileData := ⟨[dnNone, "module x;".toList], "endmodule".toList⟩

/-- Witness for (amended) claim C8 at a concrete primitives file. -/
theorem setup_primitives_rewrite_witness :
    (setup_primitives_file primsW).lines.length = 2
    ∧ setup_primitives_line "module x;".toList = "module x;".toList
    ∧ (setup_primitives_file primsW).frag = "endmodule".toList :=
  ⟨((setup_primitives_rewrite primsW).1).trans (by decide),
   (setup_primitives_rewrite primsW).2.1 _ (by decide)
     (containsB_eq_false_iff.mp (by decide)),
   (setup_primitives_rewrite primsW).2.2.2 (containsB_eq_false_iff.mp (by decide))⟩

/-- Claim C1 counterexample: in the line "xpfet_01v8_hvty" neither device
identifier occurs as a whole token (the occurrence of `pfet_01v8_hvt` is
flanked by identifier characters), so under the claim the calibre rewrite
should leave the line byte-identical — but `setup_cdl` still changes it:
the replacement is plain substring replacement, not whole-token
replacement. -/
theorem setup_cdl_token_counterexample :
    occursAsTokenB pfetId "xpfet_01v8_hvty".toList = false
    ∧ occursAsTokenB nfetId "xpfet_01v8_hvty".toList = false
    ∧ setup_cdl_file "hammer.lvs.calibre" ⟨["xpfet_01v8_hvty".toList], []⟩
        ≠ ⟨["xpfet_01v8_hvty".toList], []⟩ := by decide

/-- Claim C1 (amended): for each supported LVS tool `setup_cdl` replaces the
two identifiers everywhere they occur as substrings (left-to-right,
non-overlapping), not only as whole tokens: lines containing neither
identifier as a substring stay byte-identical, for calibre neither
identifier occurs anywhere in a rewritten line, and for any other
configured LVS tool the destination equals the source byte-for-byte. -/
theorem setup_cdl_substring_rewrite (lvs_tool : String) (d : FileData) :
    (lvs_tool ≠ "hammer.lvs.calibre" → lvs_tool ≠ "hammer.lvs.netgen" →
      setup_cdl_file lvs_tool d = d)
    ∧ (∀ pm nm, cdl_replacements lvs_tool = some (pm, nm) →
        ∀ l, ¬ pfetId <:+: l → ¬ nfetId <:+: l → setup_cdl_line pm nm l = l)
    ∧ (∀ l, ¬ pfetId <:+: setup_cdl_line calibre_pmos calibre_nmos l
        ∧ ¬ nfetId <:+: setup_cdl_line calibre_pmos calibre_nmos l)
    ∧ setup_cdl_file "hammer.lvs.calibre" d
        = mapFile (setup_cdl_line calibre_pmos calibre_nmos) d := by
  refine ⟨?_, ?_, ?_, by simp [setup_cdl_file, cdl_replacements]⟩
  · intro h1 h2
    simp [setup_cdl_file, cdl_replacements, h1, h2]
  · intro pm nm _ l hp hn
    rw [setup_cdl_line, replaceAll_of_not_occurs hp, replaceAll_of_not_occurs hn]
  · intro l
    constructor
    · have hinner : ¬ pfetId <:+: replaceAll pfetId calibre_pmos l :=
        replaceAll_self_free (by decide) (containsB_eq_false_iff.mp (by decide))
          (@straddleFree_spec pfetId calibre_pmos (by decide))
          (@borderFree_spec pfetId calibre_pmos (by decide)) l
      exact replaceAll_other_free (by decide) (containsB_eq_false_iff.mp (by decide))
        (@straddleFree_spec pfetId calibre_nmos (by decide))
        (@borderFree_spec pfetId calibre_nmos (by decide)) hinner
    · exact replaceAll_self_free (by decide) (containsB_eq_false_iff.mp (by decide))
        (@straddleFree_spec nfetId calibre_nmos (by decide))
        (@borderFree_spec nfetId calibre_nmos (by decide)) _

/-- Witness for (amended) claim C1 at concrete tools and lines. -/
theorem setup_cdl_substring_rewrite_witness :
    setup_cdl_file "hammer.lvs.magic" ⟨["pfet_01v8_hvt x".toList], []⟩
        = ⟨["pfet_01v8_hvt x".toList], []⟩
    ∧ setup_cdl_line netgen_pmos netgen_nmos "M1 d g s b".toList = "M1 d g s b".toList
    ∧ ¬ pfetId <:+: setup_cdl_line calibre_pmos calibre_nmos
        "X1 pfet_01v8_hvt nfet_01v8".toList :=
  ⟨(setup_cdl_substring_rewrite "hammer.lvs.magic" ⟨["pfet_01v8_hvt x".toList], []⟩).1
      (by decide) (by decide),
   (setup_cdl_substring_rewrite "hammer.lvs.netgen" ⟨[], []⟩).2.1 netgen_pmos netgen_nmos
      (by decide) "M1 d g s b".toList
      (containsB_eq_false_iff.mp (by decide)) (containsB_eq_false_iff.mp (by decide)),
   ((setup_cdl_substring_rewrite "hammer.lvs.calibre" ⟨[], []⟩).2.2.1
      "X1 pfet_01v8_hvt nfet_01v8".toList).1⟩

theorem techlef_map_nohit {ls : List (List Char)}
    (h : ∀ l ∈ ls, pyStrip l ≠ tlefMarker) :
    (ls.map (fun l =>
        l ++ '\n' :: (if pyStrip l = tlefMarker then the_tlef_edit else []))).flatten
      = joinNL ls := by
  induction ls with
  | nil => rfl
  | cons l ls ih =>
      have h1 : pyStrip l ≠ tlefMarker := h l (List.mem_cons_self _ _)
      have h2 : ∀ x ∈ ls, pyStrip x ≠ tlefMarker :=
        fun x hx => h x (List.mem_cons_of_mem _ hx)
      simp only [List.map_cons, List.flatten_cons, if_neg h1, ih h2]
      simp [joinNL]

/-- Claim C6: if exactly one line of the tech-LEF source strips to
"END pwell", the output of `setup_techlef` is the input with the fixed
layer block inserted immediately after that line and nowhere else; if no
line strips to the marker, the output is byte-identical to the input.  (The
second and third conjuncts cover the marker sitting among the terminated
lines and in a final newline-less line respectively.) -/
theorem setup_techlef_marker (d : FileData) :
    ((∀ l ∈ d.lines, pyStrip l ≠ tlefMarker) →
      (d.frag ≠ [] → pyStrip d.frag ≠ tlefMarker) →
      setup_techlef_text d = fileText d)
    ∧ (∀ a m b, d.lines = a ++ m :: b → pyStrip m = tlefMarker →
        (∀ l ∈ a, pyStrip l ≠ tlefMarker) → (∀ l ∈ b, pyStrip l ≠ tlefMarker) →
        (d.frag ≠ [] → pyStrip d.frag ≠ tlefMarker) →
        setup_techlef_text d
          = joinNL a ++ m ++ '\n' :: (the_tlef_edit ++ (joinNL b ++ d.frag)))
    ∧ ((∀ l ∈ d.lines, pyStrip l ≠ tlefMarker) → d.frag ≠ [] →
        pyStrip d.frag = tlefMarker →
        setup_techlef_text d = fileText d ++ the_tlef_edit) := by
  refine ⟨?_, ?_, ?_⟩
  · intro h hf
    rw [setup_techlef_text, techlef_map_nohit h,
      if_neg (by rintro ⟨hne, heq⟩; exact hf hne heq)]
    simp [fileText]
  · intro a m b hd hm ha hb hf
    rw [setup_techlef_text, hd, List.map_append, List.map_cons,
      List.flatten_append, List.flatten_cons, techlef_map_nohit ha,
      techlef_map_nohit hb, if_pos hm,
      if_neg (by rintro ⟨hne, heq⟩; exact hf hne heq)]
    simp [List.append_assoc]
  · intro h hne hm
    rw [setup_techlef_text, techlef_map_nohit h, if_pos ⟨hne, hm⟩]
    simp [fileText, List.append_assoc]

def tlefW : FileData := ⟨["A".toList, "  END pwell".toList, "B".toList], "C".toList⟩

/-- Witness for claim C6 at a concrete tech-LEF file whose second line
strips to the marker. -/
theorem setup_techlef_marker_witness :
    setup_techlef_text tlefW
      = joinNL ["A".toList] ++ "  END pwell".toList
          ++ '\n' :: (the_tlef_edit ++ (joinNL ["B".toList] ++ "C".toList)) :=
  (setup_techlef_marker tlefW).2.1 ["A".toList] "  END pwell".toList ["B".toList]
    rfl (by decide)
    (by intro l hl; simp only [List.mem_singleton] at hl; subst hl; decide)
    (by intro l hl; simp only [List.mem_singleton] at hl; subst hl; decide)
    (fun _ => by decide)

theorem splitLines_no_nl {t : List Char} (h : '\n' ∉ t) : splitLines t = ([], t) := by
  induction t with
  | nil => rfl
  | cons c t ih =>
      have hc : ¬ c = '\n' := fun e => h (e ▸ List.mem_cons_self _ _)
      have ht : '\n' ∉ t := fun m => h (List.mem_cons_of_mem _ m)
      simp [splitLines, hc, ih ht]

theorem splitLines_line {l r : List Char} (h : '\n' ∉ l) :
    splitLines (l ++ '\n' :: r) = (l :: (splitLines r).1, (splitLines r).2) := by
  induction l with
  | nil => simp [splitLines]
  | cons c l ih =>
      have hc : ¬ c = '\n' := fun e => h (e ▸ List.mem_cons_self _ _)
      have hl : '\n' ∉ l := fun m => h (List.mem_cons_of_mem _ m)
      simp [splitLines, hc, ih hl]

theorem splitLines_joinNL {ls : List (List Char)} {r : List Char}
    (h : ∀ l ∈ ls, '\n' ∉ l) :
    splitLines (joinNL ls ++ r) = (ls ++ (splitLines r).1, (splitLines r).2) := by
  induction ls with
  | nil => simp [joinNL]
  | cons l ls ih =>
      have h1 : '\n' ∉ l := h l (List.mem_cons_self _ _)
      have h2 : ∀ x ∈ ls, '\n' ∉ x := fun x hx => h x (List.mem_cons_of_mem _ hx)
      have hjoin : joinNL (l :: ls) ++ r = l ++ '\n' :: (joinNL ls ++ r) := by
        simp [joinNL]
      rw [hjoin, splitLines_line h1, ih h2]
      rfl

def toLowerList (l : List Char) : List Char := l.map Char.toLower

/-- Spec-side case-insensitive scrub matcher, from the claim's words. -/
def scrubHitCI (l : List Char) : Bool :=
  LVS_DECK_SCRUB_LINES.any (fun p => containsB (toLowerList p) (toLowerList l))

/-- Claim C3 counterexample: on the deck consisting of the single line
"erc" the rewrite keeps that line — the compiled pattern has no IGNORECASE
flag — so the output does contain a line matching the scrub pattern "ERC"
under case-insensitive matching, contrary to the claim. -/
theorem setup_lvs_deck_case_counterexample :
    (splitLines (setup_lvs_deck_text ⟨["erc".toList], []⟩)).1.any scrubHitCI = true
    ∧ scrubHitB "erc".toList = false := by decide

/-- Claim C3 (amended): scrubbing is case-sensitive substring matching on
newline-terminated lines: the output consists of exactly the source's
terminated lines containing no scrub literal (so no surviving line matches
a scrub pattern case-sensitively), then the source's unterminated final
fragment (never scrubbed), then the fixed two-line boundary-filter block,
appended exactly once at the end. -/
theorem setup_lvs_deck_scrub (d : FileData)
    (h : ∀ l ∈ d.lines, '\n' ∉ l) (hf : '\n' ∉ d.frag) :
    splitLines (setup_lvs_deck_text d)
      = (d.lines.filter (fun l => !scrubHitB l)
          ++ [d.frag, "LVS FILTER D  OPEN  SOURCE".toList,
              "LVS FILTER D  OPEN  LAYOUT".toList], [])
    ∧ ∀ l ∈ d.lines.filter (fun l => !scrubHitB l), scrubHitB l = false := by
  constructor
  · have hfilter : ∀ l ∈ d.lines.filter (fun l => !scrubHitB l), '\n' ∉ l := by
      intro l hl
      exact h l (List.mem_of_mem_filter hl)
    have hins : LVS_DECK_INSERT_LINES
        = '\n' :: ("LVS FILTER D  OPEN  SOURCE".toList
            ++ '\n' :: ("LVS FILTER D  OPEN  LAYOUT".toList ++ '\n' :: [])) := by decide
    rw [setup_lvs_deck_text, hins, List.append_assoc, splitLines_joinNL hfilter,
      splitLines_line hf, splitLines_line (by decide), splitLines_line (by decide)]
    simp [splitLines]
  · intro l hl
    have := List.of_mem_filter hl
    simpa using this

def deckW : FileData := ⟨["keep me".toList, "SOURCE PATH x".toList], "tail".toList⟩

/-- Witness for (amended) claim C3 at a concrete deck. -/
theorem setup_lvs_deck_scrub_witness :
    splitLines (setup_lvs_deck_text deckW)
      = (["keep me".toList, "tail".toList,
          "LVS FILTER D  OPEN  SOURCE".toList,
          "LVS FILTER D  OPEN  LAYOUT".toList], []) :=
  ((setup_lvs_deck_scrub deckW (by decide) (by decide)).1).trans (by decide)

theorem applyIntervalGo_getElem (s e : Nat) :
    ∀ (sl : List (List Char)) (i0 j : Nat),
      (applyIntervalGo s e i0 sl)[j]?
        = (sl[j]?).map (fun l => if s ≤ i0 + j ∧ i0 + j < e then condPortEdit l else l) := by
  intro sl
  induction sl with
  | nil => intro i0 j; simp [applyIntervalGo]
  | cons l rest ih =>
      intro i0 j
      cases j with
      | zero => simp [applyIntervalGo]
      | succ j =>
          have hc : i0 + 1 + j = i0 + (j + 1) := by omega
          simp [applyIntervalGo, ih (i0 + 1) j, hc]

theorem applyIntervalGo_length (s e : Nat) :
    ∀ (sl : List (List Char)) (i0 : Nat),
      (applyIntervalGo s e i0 sl).length = sl.length := by
  intro sl
  induction sl with
  | nil => intro _; rfl
  | cons l rest ih => intro i0; simp [applyIntervalGo, ih]

theorem setup_io_net_single {net : String} {sl : List (List Char)} {s1 e1 : Nat}
    (h1 : idxsWhere (containsB ("PIN " ++ net).toList) sl = [s1])
    (h2 : idxsWhere (containsB ("END " ++ net).toList) sl = [e1]) :
    setup_io_net net sl = applyInterval s1 e1 sl := by
  show (((idxsWhere (containsB ("PIN " ++ net).toList) sl).zip
      (idxsWhere (containsB ("END " ++ net).toList) sl)).foldl
        (fun acc iv => applyInterval iv.1 iv.2 acc) sl) = applyInterval s1 e1 sl
  rw [h1, h2]
  rfl

def ioCex : List (List Char) :=
  ["PIN VCCD1\n".toList, "PORT PORT\n".toList, "END VCCD1\n".toList]

/-- Claim C7 counterexample: exactly one PORT line lies strictly between the
net's PIN marker and END marker, yet the rewrite inserts TWO "CLASS CORE"
declarations — `str.replace` inserts one per 'PORT' occurrence in the line,
not one per PORT line. -/
theorem setup_io_lefs_counterexample :
    idxsWhere (containsB "PIN VCCD1".toList) ioCex = [0]
    ∧ idxsWhere (containsB "END VCCD1".toList) ioCex = [2]
    ∧ ((idxsWhere (containsB portPat) ioCex).filter
        (fun i => decide (0 < i) && decide (i < 2))).length = 1
    ∧ countOcc "CLASS CORE".toList ioCex.flatten = 0
    ∧ countOcc "CLASS CORE".toList (setup_io_lefs_lines ioCex).flatten = 2 := by decide

/-- Claim C7 (amended): with one PIN/END marker pair per net (markers found
by substring search, the VSSD1 pair on the VCCD1-rewritten lines) and the
two ranges disjoint, the rewrite replaces every 'PORT' occurrence — one
inserted CLASS CORE declaration per occurrence, not per PORT line — in each
line whose index lies in `[PIN marker, END marker)` (the PIN marker line
included, the END marker line excluded), and leaves every line outside the
two ranges, and every in-range line without a 'PORT' occurrence,
unmodified. -/
theorem setup_io_lefs_characterization (sl : List (List Char)) (s1 e1 s2 e2 : Nat)
    (h1 : idxsWhere (containsB ("PIN " ++ "VCCD1").toList) sl = [s1])
    (h2 : idxsWhere (containsB ("END " ++ "VCCD1").toList) sl = [e1])
    (h3 : idxsWhere (containsB ("PIN " ++ "VSSD1").toList) (applyInterval s1 e1 sl) = [s2])
    (h4 : idxsWhere (containsB ("END " ++ "VSSD1").toList) (applyInterval s1 e1 sl) = [e2])
    (hdisj : e1 ≤ s2 ∨ e2 ≤ s1) :
    (setup_io_lefs_lines sl).length = sl.length
    ∧ ∀ j, (setup_io_lefs_lines sl)[j]?
        = (sl[j]?).map (fun l =>
            if (s1 ≤ j ∧ j < e1) ∨ (s2 ≤ j ∧ j < e2) then condPortEdit l else l) := by
  have hio : setup_io_lefs_lines sl = applyInterval s2 e2 (applyInterval s1 e1 sl) := by
    rw [setup_io_lefs_lines, setup_io_net_single h1 h2, setup_io_net_single h3 h4]
  constructor
  · rw [hio, applyInterval, applyIntervalGo_length, applyInterval, applyIntervalGo_length]
  · intro j
    rw [hio, applyInterval, applyIntervalGo_getElem, applyInterval, applyIntervalGo_getElem]
    cases hsl : sl[j]? with
    | none => rfl
    | some l =>
        simp only [Option.map_some', Nat.zero_add]
        split_ifs <;> first | rfl | omega

def ioW : List (List Char) :=
  ["PIN VCCD1\n".toList, "PORT\n".toList, "END VCCD1\n".toList,
   "PIN VSSD1\n".toList, "PORT\n".toList, "END VSSD1\n".toList]

/-- Witness for (amended) claim C7 at a concrete I/O LEF with one block per
net: the line count is preserved and the VSSD1 PORT line (index 4) gets its
CLASS CORE insertion. -/
theorem setup_io_lefs_characterization_witness :
    (setup_io_lefs_lines ioW).length = 6
    ∧ (setup_io_lefs_lines ioW)[4]? = some "PORT\n      CLASS CORE ;\n".toList :=
  ⟨((setup_io_lefs_characterization ioW 0 2 3 5 (by decide) (by decide) (by decide)
      (by decide) (by decide)).1).trans (by decide),
   ((setup_io_lefs_characterization ioW 0 2 3 5 (by decide) (by decide) (by decide)
      (by decide) (by decide)).2 4).trans (by decide)⟩

def c4fs : SkyFS := ⟨fun p => if p = "s0" then some ⟨["A".toList], []⟩ else none⟩

def c4cfg : SkyConfig :=
  ⟨"/pdk", "/cache", "hammer.lvs.calibre", true, ["s0"], ["d0", "d1"],
   fun s => "/cache/" ++ s⟩

def c4cfg2 : SkyConfig :=
  ⟨"/pdk", "/cache", "hammer.lvs.calibre", true, [], ["d0"],
   fun s => "/cache/" ++ s⟩

/-- Claim C4 (code-bug evidence): with two configured decks but only one
source path, the misaligned deck "d1" is NOT skipped — the `except
IndexError` arm logs the error but has no `continue`, so the loop falls
through with the previous iteration's `source_path` still bound and writes
"d1" from "d0"'s source; and with no source path at all the very first
iteration uses an unassigned `source_path` (an UnboundLocalError), aborting
the whole operation instead of skipping the deck. -/
theorem setup_lvs_deck_misalignment :
    setup_lvs_deck_run c4fs c4cfg
      = ⟨[("/cache/d0", setup_lvs_deck_text ⟨["A".toList], []⟩),
          ("/cache/d1", setup_lvs_deck_text ⟨["A".toList], []⟩)],
         [lvs_deck_err "d1"], none⟩
    ∧ setup_lvs_deck_run c4fs c4cfg2
      = ⟨[], [lvs_deck_err "d0"], some "UnboundLocalError: source_path"⟩ := by
  constructor <;> rfl

def c5cfg : SkyConfig := ⟨"/pdk", "/cache", "none", false, [], [], fun s => s⟩

def c5fs : SkyFS :=
  ⟨fun p => if p = "/pdk/libs.ref/sky130_fd_sc_hd/verilog/sky130_fd_sc_hd.v"
    then some ⟨[], []⟩ else none⟩

/-- Claim C5 counterexample: with the library Verilog present but
primitives.v absent, `setup_verilog` raises the file-not-found error for
primitives.v only AFTER having written the rewritten library Verilog into
the cache, so the operation does not raise "before writing anything". -/
theorem setup_verilog_partial_write :
    (setup_verilog_run c5fs c5cfg).writes ≠ []
    ∧ (setup_verilog_run c5fs c5cfg).fatal
        = some "Verilog not found: /pdk/libs.ref/sky130_fd_sc_hd/verilog/primitives.v" := by
  exact ⟨by decide, rfl⟩

/-- Claim C5 (amended): each of the five artifact setups raises a
file-not-found error naming the missing source path, before writing
anything for that artifact (for the second Verilog artifact the operation
has already written the first Verilog file); nothing is caught, so
`post_install_script` finishes without a fatal error only when all five
fixed sources exist. -/
theorem setup_missing_source (fs : SkyFS) (cfg : SkyConfig) :
    (fs.files (cdl_source cfg) = none →
      setup_cdl_run fs cfg = ⟨[], [], some ("CDL not found: " ++ cdl_source cfg)⟩)
    ∧ (fs.files (verilog_source cfg) = none →
      setup_verilog_run fs cfg
        = ⟨[], [], some ("Verilog not found: " ++ verilog_source cfg)⟩)
    ∧ (∀ d1, fs.files (verilog_source cfg) = some d1 →
        fs.files (primitives_source cfg) = none →
        setup_verilog_run fs cfg
          = ⟨[(cfg.cache_dir ++ "/" ++ library_name ++ ".v",
               fileText (setup_verilog_file d1))], [],
             some ("Verilog not found: " ++ primitives_source cfg)⟩)
    ∧ (fs.files (techlef_source cfg) = none →
      setup_techlef_run fs cfg
        = ⟨[], [], some ("Tech-LEF not found: " ++ techlef_source cfg)⟩)
    ∧ (fs.files (io_lef_source cfg) = none →
      setup_io_lefs_run fs cfg
        = ⟨[], [], some ("IO LEF not found: " ++ io_lef_source cfg)⟩)
    ∧ ((post_install_script fs cfg).fatal = none →
        (fs.files (cdl_source cfg)).isSome ∧ (fs.files (verilog_source cfg)).isSome
        ∧ (fs.files (primitives_source cfg)).isSome
        ∧ (fs.files (techlef_source cfg)).isSome
        ∧ (fs.files (io_lef_source cfg)).isSome) := by
  refine ⟨fun h => by simp [setup_cdl_run, h], fun h => by simp [setup_verilog_run, h],
    fun d1 hv h => by simp [setup_verilog_run, hv, h],
    fun h => by simp [setup_techlef_run, h],
    fun h => by simp [setup_io_lefs_run, h], fun hpost => ?_⟩
  · cases hc : fs.files (cdl_source cfg) with
    | none =>
        exfalso
        simp [post_install_script, seqOp, setup_cdl_run, hc] at hpost
    | some d1 =>
        cases hv : fs.files (verilog_source cfg) with
        | none =>
            exfalso
            simp [post_install_script, seqOp, setup_cdl_run, setup_verilog_run,
              hc, hv] at hpost
        | some d2 =>
            cases hp : fs.files (primitives_source cfg) with
            | none =>
                exfalso
                simp [post_install_script, seqOp, setup_cdl_run, setup_verilog_run,
                  hc, hv, hp] at hpost
            | some d3 =>
                cases ht : fs.files (techlef_source cfg) with
                | none =>
                    exfalso
                    simp [post_install_script, seqOp, setup_cdl_run,
                      setup_verilog_run, setup_techlef_run, hc, hv, hp, ht] at hpost
                | some d4 =>
                    cases hio : fs.files (io_lef_source cfg) with
                    | none =>
                        exfalso
                        cases hl : (setup_lvs_deck_run fs cfg).fatal with
                        | none =>
                            simp [post_install_script, seqOp, setup_cdl_run,
                              setup_verilog_run, setup_techlef_run,
                              setup_io_lefs_run, hc, hv, hp, ht, hio, hl] at hpost
                        | some e =>
                            simp [post_install_script, seqOp, setup_cdl_run,
                              setup_verilog_run, setup_techlef_run,
                              hc, hv, hp, ht, hl] at hpost
                    | some d5 =>
                        exact ⟨by simp [hc], by simp [hv], by simp [hp],
                          by simp [ht], by simp [hio]⟩

/-- Witness for (amended) claim C5: with an empty filesystem the CDL and
tech-LEF setups fail with the errors naming their source paths. -/
theorem setup_missing_source_witness :
    setup_cdl_run ⟨fun _ => none⟩ c5cfg
      = ⟨[], [], some ("CDL not found: " ++ cdl_source c5cfg)⟩
    ∧ setup_techlef_run ⟨fun _ => none⟩ c5cfg
      = ⟨[], [], some ("Tech-LEF not found: " ++ techlef_source c5cfg)⟩ :=
  ⟨(setup_missing_source ⟨fun _ => none⟩ c5cfg).1 rfl,
   (setup_missing_source ⟨fun _ => none⟩ c5cfg).2.2.2.1 rfl⟩

end Sky130
